import Mathlib

/-!
Verification development for the job-application tracker (`src/new.py`).

The Python source is shallowly embedded below.  Pure string manipulation
(`str.lower`, `str.strip`, `str.title`, substring tests, and the two
`re.search` patterns used by the program) is modelled character-list by
character-list, following CPython semantics on the ASCII inputs the
program manipulates.  The spreadsheet is modelled as a header row plus a
list of data rows; the external network calls (Gemini completion, sheet
API) are modelled by explicit outcome parameters, since the program only
ever consumes their results.
-/

/-- Python `\s` character class (ASCII part), as used by `re` and `str.strip`. -/
def pyIsSpace (c : Char) : Bool :=
  c == ' ' || c == '\t' || c == '\n' || c == '\r' || c == '\x0b' || c == '\x0c'

/-- Python `str.lower` on a character list (ASCII). -/
def pyLowerL (l : List Char) : List Char := l.map Char.toLower

/-- Python `str.lower` on a string. -/
def pyLowerS (s : String) : String := ⟨pyLowerL s.data⟩

/-- Python `str.strip()` on a character list: drop whitespace at both ends. -/
def pyStripL (l : List Char) : List Char :=
  ((l.dropWhile pyIsSpace).reverse.dropWhile pyIsSpace).reverse

/-- Python `str.strip()` on a string. -/
def pyStripS (s : String) : String := ⟨pyStripL s.data⟩

/-- Python `str.title` worker: an alphabetic character is uppercased when the
previous character was not alphabetic, lowercased otherwise. -/
def pyTitleL : Bool → List Char → List Char
  | _, [] => []
  | prev, c :: cs =>
    if c.isAlpha then
      (if prev then c.toLower else c.toUpper) :: pyTitleL true cs
    else
      c :: pyTitleL false cs

/-- Python `str.title()` on a string. -/
def pyTitleS (s : String) : String := ⟨pyTitleL false s.data⟩

/-- Does `needle` occur at the head of `hay` (exact characters)? -/
def matchHead : List Char → List Char → Bool
  | [], _ => true
  | _ :: _, [] => false
  | a :: as, b :: bs => a == b && matchHead as bs

/-- Python's `needle in hay` substring test on character lists. -/
def subList (needle : List Char) : List Char → Bool
  | [] => needle.isEmpty
  | c :: cs => matchHead needle (c :: cs) || subList needle cs

/-- Strip `pat` from the head of `cs`, comparing exact characters. -/
def dropExact : List Char → List Char → Option (List Char)
  | [], cs => some cs
  | _ :: _, [] => none
  | p :: ps, c :: cs => if c == p then dropExact ps cs else none

/-- Strip `pat` from the head of `cs`, comparing case-insensitively
(the `re.IGNORECASE` matching of a literal). -/
def ciStrip : List Char → List Char → Option (List Char)
  | [], cs => some cs
  | _ :: _, [] => none
  | p :: ps, c :: cs => if c.toLower == p.toLower then ciStrip ps cs else none

/-! ### The removal pattern `remove\s+(.+?)\s+row` (IGNORECASE)

`searchRem` models `re.search(r'remove\s+(.+?)\s+row', text, re.IGNORECASE)`,
returning `group(1)` of the match when one exists.  The encoding follows the
backtracking order of the Python engine: the scan is leftmost, the first
`\s+` is greedy (longest split first), the capture `(.+?)` is lazy (one
character minimum, extended only when `\s+row` cannot match the remainder),
and `.` never matches a newline. -/

/-- Can `\s+` followed by the literal `row` (case-insensitive) match a
prefix of `cs`?  This decides where the lazy capture stops. -/
def wsThenRow : List Char → Bool
  | [] => false
  | c :: rest =>
    pyIsSpace c && ((ciStrip ['r', 'o', 'w'] rest).isSome || wsThenRow rest)

/-- Lazy extension of the capture group: stop as soon as `\s+row` matches the
remainder; otherwise consume one more (non-newline) character. -/
def lazyCap : List Char → List Char → Option (List Char)
  | _, [] => none
  | acc, c :: rest =>
    if wsThenRow (c :: rest) then some acc.reverse
    else if c == '\n' then none
    else lazyCap (c :: acc) rest

/-- The capture group `(.+?)` needs at least one (non-newline) character. -/
def capStart : List Char → Option (List Char)
  | [] => none
  | c :: rest => if c == '\n' then none else lazyCap [c] rest

/-- Length of the leading whitespace run (the maximal `\s+` match). -/
def wsCount : List Char → Nat
  | [] => 0
  | c :: cs => if pyIsSpace c then wsCount cs + 1 else 0

/-- Greedy backtracking over the first `\s+`: try consuming `j+1` whitespace
characters, longest first. -/
def tryJ : Nat → List Char → Option (List Char)
  | 0, _ => none
  | j + 1, cs =>
    match capStart (cs.drop (j + 1)) with
    | some cap => some cap
    | none => tryJ j cs

/-- Attempt the whole pattern at the current position. -/
def matchRemAt (cs : List Char) : Option (List Char) :=
  match ciStrip "remove".data cs with
  | some rest => tryJ (wsCount rest) rest
  | none => none

/-- `re.search` for the removal pattern: scan positions left to right. -/
def searchRem : List Char → Option (List Char)
  | [] => none
  | c :: cs =>
    match matchRemAt (c :: cs) with
    | some cap => some cap
    | none => searchRem cs

/-! ### Classifier (`JobTracker.is_job_application`) -/

/-- The three classifier outcomes (`'remove'`, `'application'`, `None`). -/
inductive MsgType where
  | remove
  | application
  | conversation
deriving DecidableEq

/-- The fixed keyword set of `is_job_application`. -/
def job_keywords : List String :=
  ["applied", "application", "applying", "job", "position",
   "role", "interview", "company", "submitted", "sent resume"]

/-- `JobTracker.is_job_application`: removal pattern first, then keyword
substring check on the lowercased text, else general conversation. -/
def is_job_application (text : String) : MsgType :=
  if (searchRem text.data).isSome then .remove
  else if job_keywords.any (fun k => subList k.data (pyLowerL text.data)) then .application
  else .conversation

/-- The remove branch of the turn loop re-applies the removal pattern and
strips the captured group (`match.group(1).strip()`). -/
def removeTarget (text : String) : Option String :=
  match searchRem text.data with
  | some cap => some (pyStripS ⟨cap⟩)
  | none => none

/-! ### The fenced-JSON pattern ````json\n(.*?)\n``` ` (DOTALL)

`searchJson` models `re.search(r'```json\n(.*?)\n```', response_text, re.DOTALL)`:
leftmost scan for the literal opener, then the lazy capture runs to the
earliest literal closer (with DOTALL the capture may contain newlines). -/

/-- The literal opener of the fenced block. -/
def jsonOpen : List Char := "```json\n".data

/-- The literal closer of the fenced block. -/
def jsonClose : List Char := "\n```".data

/-- Lazy capture `(.*?)` up to the earliest occurrence of the closer. -/
def capToClose : List Char → List Char → Option (List Char)
  | _, [] => none
  | acc, c :: rest =>
    if (dropExact jsonClose (c :: rest)).isSome then some acc.reverse
    else capToClose (c :: acc) rest

/-- `re.search` for the fenced-JSON pattern, returning `group(1)`. -/
def searchJson : List Char → Option (List Char)
  | [] => none
  | c :: cs =>
    match dropExact jsonOpen (c :: cs) with
    | some rest =>
      match capToClose [] rest with
      | some cap => some cap
      | none => searchJson cs
    | none => searchJson cs

/-! ### `json.loads`, modelled for flat string-valued objects

The prompt instructs the model to emit a flat JSON object whose values are
strings, and the claims only exercise such objects, so `json.loads` is
modelled by a parser for `{"key": "value", ...}` (standard JSON whitespace,
no escape sequences).  `none` plays the role of `json.JSONDecodeError`. -/

/-- JSON insignificant whitespace. -/
def jsonWs (c : Char) : Bool := c == ' ' || c == '\t' || c == '\n' || c == '\r'

/-- Skip JSON whitespace. -/
def skipWs (cs : List Char) : List Char := cs.dropWhile jsonWs

/-- Parse the body of a JSON string after the opening quote. -/
def parseStrBody : List Char → List Char → Option (String × List Char)
  | _, [] => none
  | acc, c :: rest =>
    if c == '"' then some (⟨acc.reverse⟩, rest)
    else if c == '\\' then none
    else parseStrBody (c :: acc) rest

/-- Parse one `"key" : "value"` pair. -/
def parsePair (cs : List Char) : Option ((String × String) × List Char) :=
  match skipWs cs with
  | '"' :: rest =>
    match parseStrBody [] rest with
    | some (k, rest2) =>
      match skipWs rest2 with
      | ':' :: rest3 =>
        match skipWs rest3 with
        | '"' :: rest4 =>
          match parseStrBody [] rest4 with
          | some (v, rest5) => some ((k, v), rest5)
          | none => none
        | _ => none
      | _ => none
    | none => none
  | _ => none

/-- Parse the remaining `, "key": "value"` pairs and the closing brace. -/
def parseMore : Nat → List (String × String) → List Char → Option (List (String × String))
  | 0, _, _ => none
  | fuel + 1, acc, cs =>
    match skipWs cs with
    | ',' :: rest =>
      match parsePair rest with
      | some (kv, rest2) => parseMore fuel (kv :: acc) rest2
      | none => none
    | '}' :: rest => if skipWs rest = [] then some acc.reverse else none
    | _ => none

/-- `json.loads` on a flat string-valued object. -/
def parsePyJson (cs : List Char) : Option (List (String × String)) :=
  match skipWs cs with
  | '{' :: rest =>
    match skipWs rest with
    | '}' :: rest2 => if skipWs rest2 = [] then some [] else none
    | _ =>
      match parsePair rest with
      | some (kv, rest2) => parseMore (rest2.length + 1) [kv] rest2
      | none => none
  | _ => none

/-- Python `dict.get key default` on the parsed pairs (later duplicate keys
overwrite earlier ones, hence the reversed search). -/
def jsonGet (kvs : List (String × String)) (key dflt : String) : String :=
  match kvs.reverse.find? (fun kv => kv.1 == key) with
  | some kv => kv.2
  | none => dflt

/-! ### Extraction (`JobTracker.extract_job_details`) -/

/-- The extracted record (the `details` dict of the source; `Accept` holds
the status, as in the sheet schema). -/
structure Details where
  Company_Name : String
  Role : String
  Date : String
  Platform : String
  Accept : String
deriving DecidableEq

/-- The initial `details` dict: empty fields, status `"Pending"`. -/
def emptyDetails : Details := ⟨"", "", "", "", "Pending"⟩

/-- The deterministic tail of `extract_job_details`, applied to the already
stripped model response: locate the fenced block, parse it, populate the
record (`.strip().title()` on company/role/platform, `.strip()` on date and
status, current date as default for a missing `Date` key), and compute the
validity flag `bool(details['Company_Name'] and details['Role'])`. -/
def extract_from_response (today : String) (resp : String) : Details × Bool × String :=
  match searchJson resp.data with
  | none => (emptyDetails, false, "No valid job application details found")
  | some cap =>
    match parsePyJson cap with
    | none => (emptyDetails, false, "Failed to parse Gemini AI response")
    | some kvs =>
      let d : Details :=
        { Company_Name := pyTitleS (pyStripS (jsonGet kvs "Company Name" ""))
          Role := pyTitleS (pyStripS (jsonGet kvs "Role" ""))
          Date := pyStripS (jsonGet kvs "Date" today)
          Platform := pyTitleS (pyStripS (jsonGet kvs "Platform" ""))
          Accept := pyStripS (jsonGet kvs "Status" "Pending") }
      (d, d.Company_Name != "" && d.Role != "", "Successfully extracted details")

/-- `JobTracker.extract_job_details`.  The Gemini call is an external
capability; its outcome is an explicit parameter (`.error e` models the
`except Exception` branch, `.ok txt` the returned `response.text`, which the
source strips before the regex scan). -/
def extract_job_details (gemini_configured : Bool) (today : String)
    (outcome : Except String String) : Details × Bool × String :=
  if gemini_configured then
    match outcome with
    | .error e => (emptyDetails, false, "Error extracting details with Gemini AI: " ++ e)
    | .ok txt => extract_from_response today (pyStripS txt)
  else (emptyDetails, false, "Gemini AI not configured")

/-! ### The spreadsheet (`TabularStore`)

The sheet is a header row plus data rows.  `get_all_records()` (gspread)
zips the header with each row, padding short rows with `''`, so a cell is
looked up by the *last* position of its column name in the header (later
duplicate keys overwrite earlier ones in the zipped dict).  `delete_rows i`
takes the 1-based sheet index, the header being row 1. -/

/-- A sheet: header row and data rows. -/
structure Sheet where
  header : List String
  rows : List (List String)
deriving DecidableEq

/-- Position of the last occurrence of `col` in the header. -/
def lastIdxOf (hdr : List String) (col : String) : Option Nat :=
  match hdr with
  | [] => none
  | h :: t =>
    match lastIdxOf t col with
    | some i => some (i + 1)
    | none => if h == col then some 0 else none

/-- The zipped record's entry for `col`: present exactly when the header
has the column, with `''` padding for a short row. -/
def recGetD (hdr row : List String) (col : String) : Option String :=
  (lastIdxOf hdr col).map (fun i => row.getD i "")

/-- `record.get(col, '')`. -/
def recGet (hdr row : List String) (col : String) : String :=
  (recGetD hdr row col).getD ""

/-- The expected header names checked by `add_to_sheet`. -/
def expected_headers : List String :=
  ["Company Name", "Role", "Date", "Platform", "Accept"]

/-- The duplicate test of `add_to_sheet`: company and role compared
lowercased, date compared exactly (`record.get('Date')`, no default). -/
def dupMatch (hdr : List String) (d : Details) (row : List String) : Bool :=
  pyLowerS (recGet hdr row "Company Name") == pyLowerS d.Company_Name &&
  pyLowerS (recGet hdr row "Role") == pyLowerS d.Role &&
  recGetD hdr row "Date" == some d.Date

/-- `JobTracker.add_to_sheet`.  `configured` models
`self.sheets_configured and self.sheet`; `err` models an exception raised
by the sheet API inside the `try` (the whole call fails soft).  The sheet
resulting from the call is returned alongside the `(success, message)`
pair of the source. -/
def add_to_sheet (configured : Bool) (err : Option String) (s : Sheet)
    (d : Details) : Sheet × Bool × String :=
  if configured then
    match err with
    | some e =>
      (s, false, "Error saving to sheet: " ++ e ++
        ". Ensure the service account has edit permissions.")
    | none =>
      if expected_headers.all (fun h => s.header.contains h) then
        if s.rows.any (fun r => dupMatch s.header d r) then
          (s, false, "This job application already exists")
        else
          ({ s with rows := s.rows ++ [[d.Company_Name, d.Role, d.Date, d.Platform, d.Accept]] },
           true, "Successfully added to your job tracker!")
      else
        (s, false, "Invalid sheet structure. Ensure columns are: Company Name, Role, Date, Platform, Accept")
  else
    (s, false, "Google Sheets not configured. Please check your secrets and sheet permissions.")

/-- The `rows_to_delete` list of `remove_from_sheet`: 1-based sheet indices
(starting at 2, row 1 being the header) of the data rows whose company
matches case-insensitively. -/
def rowsToDelete (hdr : List String) (company : String) : Nat → List (List String) → List Nat
  | _, [] => []
  | i, r :: rs =>
    if pyLowerS (recGet hdr r "Company Name") == pyLowerS company then
      i :: rowsToDelete hdr company (i + 1) rs
    else
      rowsToDelete hdr company (i + 1) rs

/-- `sheet.delete_rows i` for a 1-based sheet index (the header is row 1). -/
def delete_rows (s : Sheet) (i : Nat) : Sheet :=
  { s with rows := s.rows.eraseIdx (i - 2) }

/-- Descending insertion, for `sorted(rows_to_delete, reverse=True)`. -/
def insertDesc (x : Nat) : List Nat → List Nat
  | [] => [x]
  | y :: ys => if y ≤ x then x :: y :: ys else y :: insertDesc x ys

/-- `sorted(l, reverse=True)`. -/
def sortDesc (l : List Nat) : List Nat := l.foldr insertDesc []

/-- `JobTracker.remove_from_sheet`: collect the matching row indices and
delete them in descending order (so earlier deletions do not shift the
indices of later ones). -/
def remove_from_sheet (configured : Bool) (err : Option String) (s : Sheet)
    (company : String) : Sheet × Bool × String :=
  if configured then
    match err with
    | some e =>
      (s, false, "Error removing from sheet: " ++ e ++
        ". Ensure the service account has edit permissions.")
    | none =>
      let idxs := rowsToDelete s.header company 2 s.rows
      if idxs.isEmpty then
        (s, false, "No application found for " ++ pyTitleS company ++ " in your job tracker.")
      else
        ((sortDesc idxs).foldl delete_rows s, true,
         "Successfully removed " ++ toString idxs.length ++ " application(s) for " ++
           pyTitleS company ++ " from your job tracker!")
  else
    (s, false, "Google Sheets not configured. Please check your secrets and sheet permissions.")

/-! ### Responder and turn loop -/

/-- `JobTracker.get_ai_response` as a function of its external outcome. -/
def get_ai_response (gemini_configured : Bool) (outcome : Except String String) : String :=
  if gemini_configured then
    match outcome with
    | .error e => "I'm having some technical difficulties right now. Error: " ++ e
    | .ok t => t
  else
    "I'm having trouble connecting to my AI service. Please check the GEMINI_API_KEY in your secrets."

/-- A conversation turn; `job_details` is the optional structured record
attached for display. -/
structure ChatMsg where
  role : String
  content : String
  job_details : Option Details
deriving DecidableEq

/-- The tracker's configuration flags. -/
structure Tracker where
  gemini_configured : Bool
  sheets_configured : Bool

/-- Outcomes of the external calls made during one turn. -/
structure Env where
  today : String
  geminiResp : Except String String
  chatResp : Except String String
  sheetErr : Option String

/-- One iteration of the chat-input block: append the user message,
classify, dispatch, and append exactly one assistant message.  Returns the
new message list and the resulting sheet. -/
def processTurn (tr : Tracker) (env : Env) (sheet : Sheet)
    (messages : List ChatMsg) (prompt : String) : List ChatMsg × Sheet :=
  let messages := messages ++ [⟨"user", prompt, none⟩]
  match is_job_application prompt with
  | .application =>
    let ex := extract_job_details tr.gemini_configured env.today env.geminiResp
    if ex.2.1 then
      let res := add_to_sheet tr.sheets_configured env.sheetErr sheet ex.1
      if res.2.1 then
        (messages ++ [⟨"assistant",
          "Great! I've recorded your job application. " ++ res.2.2 ++
            " 🎉\n\nKeep up the great work with your job search! 💪",
          some ex.1⟩], res.1)
      else
        (messages ++ [⟨"assistant",
          "I see you applied for a job! However, there was an issue saving it: " ++ res.2.2 ++
            "\n\nBut don't worry, I've still noted your application effort! 👍",
          none⟩], res.1)
    else
      (messages ++ [⟨"assistant",
        "I couldn't extract enough details from your input: " ++ ex.2.2 ++
          ". Could you clarify? For example: 'I applied for a Software Engineer role at Google yesterday via LinkedIn'",
        none⟩], sheet)
  | .remove =>
    match searchRem prompt.data with
    | some cap =>
      let res := remove_from_sheet tr.sheets_configured env.sheetErr sheet (pyStripS ⟨cap⟩)
      (messages ++ [⟨"assistant", res.2.2, none⟩], res.1)
    | none =>
      (messages ++ [⟨"assistant",
        "Please specify the company name to remove, like: 'remove Google row'", none⟩], sheet)
  | .conversation =>
    (messages ++ [⟨"assistant", get_ai_response tr.gemini_configured env.chatResp, none⟩], sheet)

/-! ### Claims C9, C6, C5, C10: add-path header check and extraction -/

/-- C9: for every store whose header does not contain all five expected
column names (order-independent containment), add fails with the
"invalid sheet structure" message and appends nothing (the sheet is
returned unchanged). -/
theorem c9_header_check (s : Sheet) (d : Details)
    (h : expected_headers.all (fun c => s.header.contains c) = false) :
    add_to_sheet true none s d =
      (s, false,
       "Invalid sheet structure. Ensure columns are: Company Name, Role, Date, Platform, Accept") := by
  unfold add_to_sheet
  rw [h]
  rfl

/-- Witness for C9: a header missing the `Accept` column. -/
theorem c9_witness :
    expected_headers.all
        (fun c => (["Company Name", "Role", "Date", "Platform"] : List String).contains c) = false ∧
    add_to_sheet true none ⟨["Company Name", "Role", "Date", "Platform"], []⟩ emptyDetails =
      (⟨["Company Name", "Role", "Date", "Platform"], []⟩, false,
       "Invalid sheet structure. Ensure columns are: Company Name, Role, Date, Platform, Accept") :=
  ⟨rfl, c9_header_check _ _ rfl⟩

/-- C6: a response with no fenced block yields an invalid empty record and
the no-details message; a fenced block that fails to parse yields an
invalid empty record and the parse-failure message. -/
theorem c6_extraction_errors (today resp : String) :
    (searchJson resp.data = none →
      extract_from_response today resp =
        (emptyDetails, false, "No valid job application details found")) ∧
    (∀ cap, searchJson resp.data = some cap → parsePyJson cap = none →
      extract_from_response today resp =
        (emptyDetails, false, "Failed to parse Gemini AI response")) := by
  constructor
  · intro h
    simp [extract_from_response, h]
  · intro cap h1 h2
    simp [extract_from_response, h1, h2]

/-- Witness for C6: a blockless response and an unparseable block. -/
theorem c6_witness :
    searchJson ("hello there" : String).data = none ∧
    extract_from_response "2025-10-12" "hello there" =
      (emptyDetails, false, "No valid job application details found") ∧
    searchJson ("```json\nnot json\n```" : String).data = some ("not json" : String).data ∧
    parsePyJson ("not json" : String).data = none ∧
    extract_from_response "2025-10-12" "```json\nnot json\n```" =
      (emptyDetails, false, "Failed to parse Gemini AI response") :=
  ⟨rfl, (c6_extraction_errors "2025-10-12" "hello there").1 rfl, rfl, rfl,
   (c6_extraction_errors "2025-10-12" "```json\nnot json\n```").2 _ rfl rfl⟩

/-- C5: on a response with a parseable fenced block, extraction title-cases
company, role and platform (after stripping), only strips date and status,
and is valid exactly when the resulting company and role are nonempty. -/
theorem c5_extraction_titlecase (today resp : String) (cap : List Char)
    (kvs : List (String × String))
    (h1 : searchJson resp.data = some cap) (h2 : parsePyJson cap = some kvs) :
    (extract_from_response today resp).1.Company_Name
        = pyTitleS (pyStripS (jsonGet kvs "Company Name" "")) ∧
    (extract_from_response today resp).1.Role
        = pyTitleS (pyStripS (jsonGet kvs "Role" "")) ∧
    (extract_from_response today resp).1.Platform
        = pyTitleS (pyStripS (jsonGet kvs "Platform" "")) ∧
    (extract_from_response today resp).1.Date
        = pyStripS (jsonGet kvs "Date" today) ∧
    (extract_from_response today resp).1.Accept
        = pyStripS (jsonGet kvs "Status" "Pending") ∧
    ((extract_from_response today resp).2.1 = true ↔
      ((extract_from_response today resp).1.Company_Name ≠ "" ∧
       (extract_from_response today resp).1.Role ≠ "")) := by
  simp [extract_from_response, h1, h2, Bool.and_eq_true, bne_iff_ne]

/-- Witness for C5: the spec's own example block. -/
theorem c5_witness :
    searchJson ("```json\n\x7b\"Company Name\": \"google\", \"Role\": \"software engineer\", \"Date\": \"2025-10-11\", \"Platform\": \"linkedin\", \"Status\": \"Pending\"\x7d\n```" : String).data
      = some ("\x7b\"Company Name\": \"google\", \"Role\": \"software engineer\", \"Date\": \"2025-10-11\", \"Platform\": \"linkedin\", \"Status\": \"Pending\"\x7d" : String).data ∧
    parsePyJson ("\x7b\"Company Name\": \"google\", \"Role\": \"software engineer\", \"Date\": \"2025-10-11\", \"Platform\": \"linkedin\", \"Status\": \"Pending\"\x7d" : String).data
      = some [("Company Name", "google"), ("Role", "software engineer"),
              ("Date", "2025-10-11"), ("Platform", "linkedin"), ("Status", "Pending")] ∧
    ((extract_from_response "2025-10-12" "```json\n\x7b\"Company Name\": \"google\", \"Role\": \"software engineer\", \"Date\": \"2025-10-11\", \"Platform\": \"linkedin\", \"Status\": \"Pending\"\x7d\n```").2.1 = true ↔
      ((extract_from_response "2025-10-12" "```json\n\x7b\"Company Name\": \"google\", \"Role\": \"software engineer\", \"Date\": \"2025-10-11\", \"Platform\": \"linkedin\", \"Status\": \"Pending\"\x7d\n```").1.Company_Name ≠ "" ∧
       (extract_from_response "2025-10-12" "```json\n\x7b\"Company Name\": \"google\", \"Role\": \"software engineer\", \"Date\": \"2025-10-11\", \"Platform\": \"linkedin\", \"Status\": \"Pending\"\x7d\n```").1.Role ≠ "")) ∧
    extract_from_response "2025-10-12" "```json\n\x7b\"Company Name\": \"google\", \"Role\": \"software engineer\", \"Date\": \"2025-10-11\", \"Platform\": \"linkedin\", \"Status\": \"Pending\"\x7d\n```"
      = (⟨"Google", "Software Engineer", "2025-10-11", "Linkedin", "Pending"⟩, true,
         "Successfully extracted details") :=
  ⟨rfl, rfl,
   (c5_extraction_titlecase "2025-10-12"
     "```json\n\x7b\"Company Name\": \"google\", \"Role\": \"software engineer\", \"Date\": \"2025-10-11\", \"Platform\": \"linkedin\", \"Status\": \"Pending\"\x7d\n```"
     ("\x7b\"Company Name\": \"google\", \"Role\": \"software engineer\", \"Date\": \"2025-10-11\", \"Platform\": \"linkedin\", \"Status\": \"Pending\"\x7d" : String).data
     [("Company Name", "google"), ("Role", "software engineer"),
      ("Date", "2025-10-11"), ("Platform", "linkedin"), ("Status", "Pending")]
     rfl rfl).2.2.2.2.2, rfl⟩

/-- C10: the current-date default for `Date` applies only when the parsed
object has no `Date` key at all; a present key keeps its (stripped) value,
so an empty-string `Date` stays empty. -/
theorem c10_date_default (today resp : String) (cap : List Char)
    (kvs : List (String × String))
    (h1 : searchJson resp.data = some cap) (h2 : parsePyJson cap = some kvs) :
    (kvs.reverse.find? (fun kv => kv.1 == "Date") = none →
      (extract_from_response today resp).1.Date = pyStripS today) ∧
    (∀ p, kvs.reverse.find? (fun kv => kv.1 == "Date") = some p →
      (extract_from_response today resp).1.Date = pyStripS p.2) := by
  constructor
  · intro h
    simp [extract_from_response, h1, h2, jsonGet, h]
  · intro p h
    simp [extract_from_response, h1, h2, jsonGet, h]

/-- Witness for C10: a block whose `Date` key is present but empty gives a
valid record whose date is the empty string, not today's date. -/
theorem c10_witness :
    searchJson ("```json\n\x7b\"Company Name\": \"acme\", \"Role\": \"dev\", \"Date\": \"\"\x7d\n```" : String).data
      = some ("\x7b\"Company Name\": \"acme\", \"Role\": \"dev\", \"Date\": \"\"\x7d" : String).data ∧
    parsePyJson ("\x7b\"Company Name\": \"acme\", \"Role\": \"dev\", \"Date\": \"\"\x7d" : String).data
      = some [("Company Name", "acme"), ("Role", "dev"), ("Date", "")] ∧
    (extract_from_response "2025-10-12" "```json\n\x7b\"Company Name\": \"acme\", \"Role\": \"dev\", \"Date\": \"\"\x7d\n```").1.Date = pyStripS "" ∧
    (extract_from_response "2025-10-12" "```json\n\x7b\"Company Name\": \"acme\", \"Role\": \"dev\", \"Date\": \"\"\x7d\n```").1.Date = "" ∧
    (extract_from_response "2025-10-12" "```json\n\x7b\"Company Name\": \"acme\", \"Role\": \"dev\", \"Date\": \"\"\x7d\n```").2.1 = true :=
  ⟨rfl, rfl,
   (c10_date_default "2025-10-12"
     "```json\n\x7b\"Company Name\": \"acme\", \"Role\": \"dev\", \"Date\": \"\"\x7d\n```"
     ("\x7b\"Company Name\": \"acme\", \"Role\": \"dev\", \"Date\": \"\"\x7d" : String).data
     [("Company Name", "acme"), ("Role", "dev"), ("Date", "")]
     rfl rfl).2 ("Date", "") rfl,
   rfl, rfl⟩

/-! ### Claims C4 and C8: keyword classification and the turn invariant -/

/-- C4: on text the removal pattern does not match, the classifier yields
`application` exactly when some fixed keyword is a substring of the
lowercased text, and `conversation` otherwise. -/
theorem c4_keyword_classification (text : String)
    (h : searchRem text.data = none) :
    (is_job_application text = .application ↔
      job_keywords.any (fun k => subList k.data (pyLowerL text.data)) = true) ∧
    (job_keywords.any (fun k => subList k.data (pyLowerL text.data)) = false →
      is_job_application text = .conversation) := by
  unfold is_job_application
  rw [h]
  constructor
  · cases hk : job_keywords.any (fun k => subList k.data (pyLowerL text.data)) <;>
      simp [hk]
  · intro hk
    simp [hk]

/-- Witness for C4: a plain application report and plain chit-chat. -/
theorem c4_witness :
    searchRem ("I applied to Acme" : String).data = none ∧
    is_job_application "I applied to Acme" = .application ∧
    searchRem ("good morning" : String).data = none ∧
    is_job_application "good morning" = .conversation :=
  ⟨rfl, (c4_keyword_classification "I applied to Acme" rfl).1.mpr rfl, rfl,
   (c4_keyword_classification "good morning" rfl).2 rfl⟩

/-- Appending two singletons in sequence appends a two-element list. -/
theorem append_two {α : Type} (l : List α) (a b : α) :
    (l ++ [a]) ++ [b] = l ++ [a, b] := by
  simp

/-- C8: every turn, whatever the classification and whatever the outcomes of
the external calls, appends the inbound user message and then exactly one
assistant message to the history. -/
theorem c8_turn_appends_one (tr : Tracker) (env : Env) (sheet : Sheet)
    (messages : List ChatMsg) (prompt : String) :
    ∃ m : ChatMsg,
      (processTurn tr env sheet messages prompt).1
          = messages ++ [⟨"user", prompt, none⟩, m] ∧
      m.role = "assistant" := by
  unfold processTurn
  rcases is_job_application prompt with _ | _ | _ <;> try dsimp only
  · rcases searchRem prompt.data with _ | cap <;> try dsimp only
    · exact ⟨_, append_two _ _ _, rfl⟩
    · exact ⟨_, append_two _ _ _, rfl⟩
  · cases hv : (extract_job_details tr.gemini_configured env.today env.geminiResp).2.1
    · rw [if_neg (by simp)]
      exact ⟨_, append_two _ _ _, rfl⟩
    · rw [if_pos rfl]
      cases hs : (add_to_sheet tr.sheets_configured env.sheetErr sheet
          (extract_job_details tr.gemini_configured env.today env.geminiResp).1).2.1
      · rw [if_neg (by simp)]
        exact ⟨_, append_two _ _ _, rfl⟩
      · rw [if_pos rfl]
        exact ⟨_, append_two _ _ _, rfl⟩
  · exact ⟨_, append_two _ _ _, rfl⟩

/-! ### Claim C1: add twice under the dedup key -/

/-- The row appended by a successful add. -/
theorem add_row_shape (s : Sheet) (d : Details)
    (hall : expected_headers.all (fun c => s.header.contains c) = true)
    (hnew : s.rows.any (fun r => dupMatch s.header d r) = false) :
    add_to_sheet true none s d =
      (⟨s.header, s.rows ++ [[d.Company_Name, d.Role, d.Date, d.Platform, d.Accept]]⟩,
       true, "Successfully added to your job tracker!") := by
  unfold add_to_sheet
  rw [hall, hnew]
  rfl

/-- The freshly appended row matches its own dedup key under the canonical
header. -/
theorem dupMatch_self (d : Details) :
    dupMatch expected_headers d
      [d.Company_Name, d.Role, d.Date, d.Platform, d.Accept] = true := by
  have h1 : recGet expected_headers
      [d.Company_Name, d.Role, d.Date, d.Platform, d.Accept] "Company Name" = d.Company_Name := rfl
  have h2 : recGet expected_headers
      [d.Company_Name, d.Role, d.Date, d.Platform, d.Accept] "Role" = d.Role := rfl
  have h3 : recGetD expected_headers
      [d.Company_Name, d.Role, d.Date, d.Platform, d.Accept] "Date" = some d.Date := rfl
  simp [dupMatch, h1, h2, h3]

/-- C1 (amended): on a store with the canonical header and no row already
matching the dedup key, the first add succeeds and appends the record's row,
and the second identical add fails with the "already exists" message,
appends nothing, and leaves exactly one row matching the key. -/
theorem c1_add_twice (rows : List (List String)) (d : Details)
    (hnew : ∀ r ∈ rows, dupMatch expected_headers d r = false) :
    (add_to_sheet true none ⟨expected_headers, rows⟩ d).2.1 = true ∧
    (add_to_sheet true none ⟨expected_headers, rows⟩ d).1.rows
        = rows ++ [[d.Company_Name, d.Role, d.Date, d.Platform, d.Accept]] ∧
    add_to_sheet true none (add_to_sheet true none ⟨expected_headers, rows⟩ d).1 d
        = ((add_to_sheet true none ⟨expected_headers, rows⟩ d).1, false,
           "This job application already exists") ∧
    ((add_to_sheet true none ⟨expected_headers, rows⟩ d).1.rows.filter
        (fun r => dupMatch expected_headers d r)).length = 1 := by
  have hall : expected_headers.all (fun c => expected_headers.contains c) = true := rfl
  have hany : rows.any (fun r => dupMatch expected_headers d r) = false := by
    rw [List.any_eq_false]
    intro r hr
    simp [hnew r hr]
  have h1 := add_row_shape ⟨expected_headers, rows⟩ d hall hany
  have hany2 : (rows ++ [[d.Company_Name, d.Role, d.Date, d.Platform, d.Accept]]).any
      (fun r => dupMatch expected_headers d r) = true := by
    rw [List.any_append]
    simp [dupMatch_self d]
  refine ⟨?_, ?_, ?_, ?_⟩
  · rw [h1]
  · rw [h1]
  · rw [h1]
    unfold add_to_sheet
    rw [show (Sheet.mk expected_headers
        (rows ++ [[d.Company_Name, d.Role, d.Date, d.Platform, d.Accept]])).rows.any
        (fun r => dupMatch expected_headers d r) = true from hany2]
    rfl
  · rw [h1]
    rw [show (Sheet.mk expected_headers
        (rows ++ [[d.Company_Name, d.Role, d.Date, d.Platform, d.Accept]])).rows
        = rows ++ [[d.Company_Name, d.Role, d.Date, d.Platform, d.Accept]] from rfl]
    rw [List.filter_append]
    have hfil : rows.filter (fun r => dupMatch expected_headers d r) = [] := by
      rw [List.filter_eq_nil_iff]
      intro r hr
      simp [hnew r hr]
    rw [hfil]
    simp [dupMatch_self d]

/-- Witness for C1 (amended): an empty store and a concrete record. -/
theorem c1_witness :
    (∀ r ∈ ([] : List (List String)),
      dupMatch expected_headers ⟨"Acme", "Dev", "2024-01-02", "LinkedIn", "Pending"⟩ r = false) ∧
    ((add_to_sheet true none ⟨expected_headers, []⟩
        ⟨"Acme", "Dev", "2024-01-02", "LinkedIn", "Pending"⟩).2.1 = true ∧
     (add_to_sheet true none ⟨expected_headers, []⟩
        ⟨"Acme", "Dev", "2024-01-02", "LinkedIn", "Pending"⟩).1.rows
         = [] ++ [["Acme", "Dev", "2024-01-02", "LinkedIn", "Pending"]] ∧
     add_to_sheet true none (add_to_sheet true none ⟨expected_headers, []⟩
          ⟨"Acme", "Dev", "2024-01-02", "LinkedIn", "Pending"⟩).1
          ⟨"Acme", "Dev", "2024-01-02", "LinkedIn", "Pending"⟩
         = ((add_to_sheet true none ⟨expected_headers, []⟩
              ⟨"Acme", "Dev", "2024-01-02", "LinkedIn", "Pending"⟩).1, false,
            "This job application already exists") ∧
     ((add_to_sheet true none ⟨expected_headers, []⟩
          ⟨"Acme", "Dev", "2024-01-02", "LinkedIn", "Pending"⟩).1.rows.filter
        (fun r => dupMatch expected_headers
          ⟨"Acme", "Dev", "2024-01-02", "LinkedIn", "Pending"⟩ r)).length = 1) :=
  ⟨fun r hr => absurd hr (List.not_mem_nil r),
   c1_add_twice [] ⟨"Acme", "Dev", "2024-01-02", "LinkedIn", "Pending"⟩
     (fun r hr => absurd hr (List.not_mem_nil r))⟩

/-- Counterexample to C1 as stated: it quantifies over *every* store state,
but (a) on a store already containing the dedup key the first call is not a
success, and (b) on a store whose header is merely a permutation of the
expected one (which passes the containment check) the appended row is
misaligned with the header, so the second identical call succeeds as well
and appends a second row. -/
theorem c1_counterexample :
    (add_to_sheet true none
        ⟨expected_headers, [["Acme", "Dev", "2024-01-02", "X", "Pending"]]⟩
        ⟨"Acme", "Dev", "2024-01-02", "X", "Pending"⟩).2.1 = false ∧
    (add_to_sheet true none
        (add_to_sheet true none ⟨["Role", "Company Name", "Date", "Platform", "Accept"], []⟩
          ⟨"Acme", "Dev", "2024-01-02", "X", "Pending"⟩).1
        ⟨"Acme", "Dev", "2024-01-02", "X", "Pending"⟩).2.1 = true ∧
    (add_to_sheet true none
        (add_to_sheet true none ⟨["Role", "Company Name", "Date", "Platform", "Accept"], []⟩
          ⟨"Acme", "Dev", "2024-01-02", "X", "Pending"⟩).1
        ⟨"Acme", "Dev", "2024-01-02", "X", "Pending"⟩).1.rows.length = 2 :=
  ⟨rfl, rfl, rfl⟩

/-! ### Claim C7: record attachment in the application branch -/

/-- C7 (amended): in the application branch, the structured record is
attached to the outbound assistant turn exactly when extraction was valid
*and* the store add succeeded; when extraction is invalid no record is
attached and the reply is the clarification request with an example. -/
theorem c7_record_attachment (tr : Tracker) (env : Env) (sheet : Sheet)
    (messages : List ChatMsg) (prompt : String)
    (h : is_job_application prompt = .application) :
    ∃ m : ChatMsg,
      (processTurn tr env sheet messages prompt).1
          = messages ++ [⟨"user", prompt, none⟩, m] ∧
      m.job_details =
        (if (extract_job_details tr.gemini_configured env.today env.geminiResp).2.1 = true ∧
            (add_to_sheet tr.sheets_configured env.sheetErr sheet
              (extract_job_details tr.gemini_configured env.today env.geminiResp).1).2.1 = true
         then some (extract_job_details tr.gemini_configured env.today env.geminiResp).1
         else none) ∧
      ((extract_job_details tr.gemini_configured env.today env.geminiResp).2.1 = false →
        m.content = "I couldn't extract enough details from your input: " ++
          (extract_job_details tr.gemini_configured env.today env.geminiResp).2.2 ++
          ". Could you clarify? For example: 'I applied for a Software Engineer role at Google yesterday via LinkedIn'") := by
  unfold processTurn
  rw [h]
  dsimp only
  cases hv : (extract_job_details tr.gemini_configured env.today env.geminiResp).2.1
  · rw [if_neg (by simp)]
    refine ⟨_, append_two _ _ _, ?_, ?_⟩
    · rw [if_neg (by simp)]
    · intro _
      rfl
  · rw [if_pos rfl]
    cases hs : (add_to_sheet tr.sheets_configured env.sheetErr sheet
        (extract_job_details tr.gemini_configured env.today env.geminiResp).1).2.1
    · rw [if_neg (by simp)]
      refine ⟨_, append_two _ _ _, ?_, ?_⟩
      · rw [if_neg (by simp)]
      · intro hfalse
        simp at hfalse
    · rw [if_pos rfl]
      refine ⟨_, append_two _ _ _, ?_, ?_⟩
      · rw [if_pos ⟨rfl, rfl⟩]
      · intro hfalse
        simp at hfalse

/-- Witness for C7: valid extraction and a successful add on an empty store
attach the record. -/
theorem c7_witness :
    is_job_application "I applied at Acme" = MsgType.application ∧
    ∃ m : ChatMsg,
      (processTurn ⟨true, true⟩
          ⟨"2025-10-12", .ok "```json\n\x7b\"Company Name\": \"acme\", \"Role\": \"dev\"\x7d\n```",
           .ok "hi", none⟩
          ⟨expected_headers, []⟩ [] "I applied at Acme").1
          = [] ++ [⟨"user", "I applied at Acme", none⟩, m] ∧
      m.job_details =
        (if (extract_job_details true "2025-10-12"
              (.ok "```json\n\x7b\"Company Name\": \"acme\", \"Role\": \"dev\"\x7d\n```")).2.1 = true ∧
            (add_to_sheet true none ⟨expected_headers, []⟩
              (extract_job_details true "2025-10-12"
                (.ok "```json\n\x7b\"Company Name\": \"acme\", \"Role\": \"dev\"\x7d\n```")).1).2.1 = true
         then some (extract_job_details true "2025-10-12"
              (.ok "```json\n\x7b\"Company Name\": \"acme\", \"Role\": \"dev\"\x7d\n```")).1
         else none) ∧
      ((extract_job_details true "2025-10-12"
          (.ok "```json\n\x7b\"Company Name\": \"acme\", \"Role\": \"dev\"\x7d\n```")).2.1 = false →
        m.content = "I couldn't extract enough details from your input: " ++
          (extract_job_details true "2025-10-12"
            (.ok "```json\n\x7b\"Company Name\": \"acme\", \"Role\": \"dev\"\x7d\n```")).2.2 ++
          ". Could you clarify? For example: 'I applied for a Software Engineer role at Google yesterday via LinkedIn'") :=
  ⟨rfl, c7_record_attachment ⟨true, true⟩
    ⟨"2025-10-12", .ok "```json\n\x7b\"Company Name\": \"acme\", \"Role\": \"dev\"\x7d\n```",
     .ok "hi", none⟩
    ⟨expected_headers, []⟩ [] "I applied at Acme" rfl⟩

/-- Counterexample to C7 as stated: with a valid extraction whose add fails
as a duplicate, the code attaches no record to the outbound turn, whereas
the claim promises attachment "regardless of whether the store add
succeeded or failed". -/
theorem c7_counterexample :
    (extract_job_details true "2025-10-12"
        (.ok "```json\n\x7b\"Company Name\": \"acme\", \"Role\": \"dev\", \"Date\": \"2024-01-02\"\x7d\n```")).2.1
      = true ∧
    (add_to_sheet true none ⟨expected_headers, [["Acme", "Dev", "2024-01-02", "X", "Pending"]]⟩
        (extract_job_details true "2025-10-12"
          (.ok "```json\n\x7b\"Company Name\": \"acme\", \"Role\": \"dev\", \"Date\": \"2024-01-02\"\x7d\n```")).1).2.1
      = false ∧
    ((processTurn ⟨true, true⟩
        ⟨"2025-10-12",
         .ok "```json\n\x7b\"Company Name\": \"acme\", \"Role\": \"dev\", \"Date\": \"2024-01-02\"\x7d\n```",
         .ok "hi", none⟩
        ⟨expected_headers, [["Acme", "Dev", "2024-01-02", "X", "Pending"]]⟩ []
        "I applied at Acme").1.getLast?.map (fun m => m.job_details)) = some none :=
  ⟨rfl, rfl, rfl⟩

/-! ### Claim C2: remove deletes exactly the matching rows -/

/-- Unfolding equation for `rowsToDelete` on a cons. -/
theorem rowsToDelete_cons (hdr : List String) (c : String) (k : Nat)
    (r : List String) (rs : List (List String)) :
    rowsToDelete hdr c k (r :: rs)
      = if pyLowerS (recGet hdr r "Company Name") == pyLowerS c then
          k :: rowsToDelete hdr c (k + 1) rs
        else rowsToDelete hdr c (k + 1) rs := rfl

/-- Every collected index is at least the start index. -/
theorem rowsToDelete_ge (hdr : List String) (c : String) :
    ∀ (rs : List (List String)) (k i : Nat), i ∈ rowsToDelete hdr c k rs → k ≤ i := by
  intro rs
  induction rs with
  | nil =>
    intro k i hi
    simp [rowsToDelete] at hi
  | cons r rs ih =>
    intro k i hi
    rw [rowsToDelete_cons] at hi
    split at hi
    · rcases List.mem_cons.mp hi with h | h
      · omega
      · have := ih (k + 1) i h
        omega
    · have := ih (k + 1) i hi
      omega

/-- The collected indices are strictly increasing. -/
theorem rowsToDelete_pairwise (hdr : List String) (c : String) :
    ∀ (rs : List (List String)) (k : Nat),
      (rowsToDelete hdr c k rs).Pairwise (· < ·) := by
  intro rs
  induction rs with
  | nil =>
    intro k
    exact List.Pairwise.nil
  | cons r rs ih =>
    intro k
    rw [rowsToDelete_cons]
    split
    · exact List.Pairwise.cons
        (fun j hj => by have := rowsToDelete_ge hdr c rs (k + 1) j hj; omega)
        (ih (k + 1))
    · exact ih (k + 1)

/-- The number of collected indices is the number of matching rows. -/
theorem rowsToDelete_length (hdr : List String) (c : String) :
    ∀ (rs : List (List String)) (k : Nat),
      (rowsToDelete hdr c k rs).length
        = (rs.filter (fun r => pyLowerS (recGet hdr r "Company Name") == pyLowerS c)).length := by
  intro rs
  induction rs with
  | nil =>
    intro k
    rfl
  | cons r rs ih =>
    intro k
    rw [rowsToDelete_cons]
    cases hm : pyLowerS (recGet hdr r "Company Name") == pyLowerS c
    · simp [hm, List.filter_cons, ih (k + 1)]
    · simp [hm, List.filter_cons, ih (k + 1)]

/-- The collected indices are empty exactly when no row matches. -/
theorem rowsToDelete_isEmpty (hdr : List String) (c : String) :
    ∀ (rs : List (List String)) (k : Nat),
      (rowsToDelete hdr c k rs).isEmpty
        = !(rs.any (fun r => pyLowerS (recGet hdr r "Company Name") == pyLowerS c)) := by
  intro rs
  induction rs with
  | nil =>
    intro k
    rfl
  | cons r rs ih =>
    intro k
    rw [rowsToDelete_cons]
    cases hm : pyLowerS (recGet hdr r "Company Name") == pyLowerS c
    · simp [hm, ih (k + 1)]
    · simp [hm]

/-- Inserting below every element of a descending list appends at the end. -/
theorem insertDesc_append (x : Nat) :
    ∀ (l : List Nat), (∀ y ∈ l, x < y) → insertDesc x l = l ++ [x] := by
  intro l
  induction l with
  | nil =>
    intro _
    rfl
  | cons y ys ih =>
    intro h
    have hy : x < y := h y (List.mem_cons_self y ys)
    unfold insertDesc
    rw [if_neg (by omega)]
    rw [ih (fun z hz => h z (List.mem_cons_of_mem _ hz))]
    rfl

/-- Sorting a strictly increasing list in descending order reverses it. -/
theorem sortDesc_of_pairwise :
    ∀ (l : List Nat), l.Pairwise (· < ·) → sortDesc l = l.reverse := by
  intro l
  induction l with
  | nil =>
    intro _
    rfl
  | cons x xs ih =>
    intro h
    show insertDesc x (sortDesc xs) = (x :: xs).reverse
    rw [ih (List.pairwise_cons.mp h).2]
    rw [insertDesc_append x xs.reverse
      (fun y hy => (List.pairwise_cons.mp h).1 y (List.mem_reverse.mp hy))]
    rw [List.reverse_cons]

/-- Folding deletions with a shifted base: when every index is at least
`k + 1`, a head row survives all the deletions. -/
theorem eraseFold_shift (k : Nat) (r : List String) (rs : List (List String)) :
    ∀ (idxs : List Nat), (∀ i ∈ idxs, k + 1 ≤ i) →
      idxs.foldr (fun i acc => acc.eraseIdx (i - k)) (r :: rs)
        = r :: idxs.foldr (fun i acc => acc.eraseIdx (i - (k + 1))) rs := by
  intro idxs
  induction idxs with
  | nil =>
    intro _
    rfl
  | cons j tl ih =>
    intro h
    have hj : k + 1 ≤ j := h j (List.mem_cons_self j tl)
    simp only [List.foldr_cons]
    rw [ih (fun i hi => h i (List.mem_cons_of_mem _ hi))]
    rw [show j - k = (j - (k + 1)) + 1 from by omega]
    rw [List.eraseIdx_cons_succ]

/-- Deleting the collected indices from the largest down is filtering out the
matching rows. -/
theorem eraseFold_filter (hdr : List String) (c : String) :
    ∀ (rs : List (List String)) (k : Nat),
      (rowsToDelete hdr c k rs).foldr (fun i acc => acc.eraseIdx (i - k)) rs
        = rs.filter (fun r => !(pyLowerS (recGet hdr r "Company Name") == pyLowerS c)) := by
  intro rs
  induction rs with
  | nil =>
    intro k
    rfl
  | cons r rs ih =>
    intro k
    rw [rowsToDelete_cons]
    cases hm : pyLowerS (recGet hdr r "Company Name") == pyLowerS c
    · rw [if_neg (by simp)]
      rw [eraseFold_shift k r rs _ (fun i hi => rowsToDelete_ge hdr c rs (k + 1) i hi)]
      rw [ih (k + 1)]
      simp [List.filter_cons, hm]
    · rw [if_pos rfl]
      simp only [List.foldr_cons]
      rw [eraseFold_shift k r rs _ (fun i hi => rowsToDelete_ge hdr c rs (k + 1) i hi)]
      rw [Nat.sub_self, List.eraseIdx_cons_zero]
      rw [ih (k + 1)]
      simp [List.filter_cons, hm]

/-- A fold of `delete_rows` keeps the header and acts on the rows. -/
theorem foldl_delete_rows :
    ∀ (idxs : List Nat) (s : Sheet),
      (idxs.foldl delete_rows s).header = s.header ∧
      (idxs.foldl delete_rows s).rows
        = idxs.foldl (fun rs i => rs.eraseIdx (i - 2)) s.rows := by
  intro idxs
  induction idxs with
  | nil =>
    intro s
    exact ⟨rfl, rfl⟩
  | cons i tl ih =>
    intro s
    simp only [List.foldl_cons]
    exact ih (delete_rows s i)

/-- C2: remove deletes exactly the case-insensitively matching rows; with at
least one match it reports success and the count of removed rows, with none
it fails with the "No application found" message and the store unchanged. -/
theorem c2_remove_exact (s : Sheet) (company : String) :
    (remove_from_sheet true none s company).1.header = s.header ∧
    (remove_from_sheet true none s company).1.rows
        = s.rows.filter
            (fun r => !(pyLowerS (recGet s.header r "Company Name") == pyLowerS company)) ∧
    (s.rows.any (fun r => pyLowerS (recGet s.header r "Company Name") == pyLowerS company) = true →
      (remove_from_sheet true none s company).2.1 = true ∧
      (remove_from_sheet true none s company).2.2
        = "Successfully removed " ++
            toString (s.rows.filter
              (fun r => pyLowerS (recGet s.header r "Company Name") == pyLowerS company)).length ++
            " application(s) for " ++ pyTitleS company ++ " from your job tracker!") ∧
    (s.rows.any (fun r => pyLowerS (recGet s.header r "Company Name") == pyLowerS company) = false →
      remove_from_sheet true none s company
        = (s, false, "No application found for " ++ pyTitleS company ++ " in your job tracker.")) := by
  cases hany : s.rows.any (fun r => pyLowerS (recGet s.header r "Company Name") == pyLowerS company)
  · have hempty : (rowsToDelete s.header company 2 s.rows).isEmpty = true := by
      rw [rowsToDelete_isEmpty s.header company s.rows 2, hany]
      rfl
    have hres : remove_from_sheet true none s company
        = (s, false, "No application found for " ++ pyTitleS company ++ " in your job tracker.") := by
      unfold remove_from_sheet
      dsimp only
      rw [hempty]
      rfl
    have hfil : s.rows.filter
        (fun r => !(pyLowerS (recGet s.header r "Company Name") == pyLowerS company)) = s.rows := by
      rw [List.filter_eq_self]
      intro r hr
      rw [List.any_eq_false] at hany
      simp [hany r hr]
    refine ⟨by rw [hres], by rw [hres, hfil], ?_, fun _ => hres⟩
    intro hcontra
    exact absurd hcontra (by simp)
  · have hempty : (rowsToDelete s.header company 2 s.rows).isEmpty = false := by
      rw [rowsToDelete_isEmpty s.header company s.rows 2, hany]
      rfl
    have hres : remove_from_sheet true none s company
        = ((sortDesc (rowsToDelete s.header company 2 s.rows)).foldl delete_rows s, true,
           "Successfully removed " ++ toString (rowsToDelete s.header company 2 s.rows).length ++
             " application(s) for " ++ pyTitleS company ++ " from your job tracker!") := by
      unfold remove_from_sheet
      dsimp only
      rw [hempty]
      rfl
    have hrows : ((sortDesc (rowsToDelete s.header company 2 s.rows)).foldl delete_rows s).rows
        = s.rows.filter
            (fun r => !(pyLowerS (recGet s.header r "Company Name") == pyLowerS company)) := by
      rw [(foldl_delete_rows _ s).2]
      rw [sortDesc_of_pairwise _ (rowsToDelete_pairwise s.header company s.rows 2)]
      rw [List.foldl_reverse]
      exact eraseFold_filter s.header company s.rows 2
    refine ⟨?_, ?_, fun _ => ⟨by rw [hres], ?_⟩, ?_⟩
    · rw [hres]
      exact (foldl_delete_rows _ s).1
    · rw [hres]
      exact hrows
    · rw [hres]
      dsimp only
      rw [rowsToDelete_length s.header company s.rows 2]
    · intro hcontra
      exact absurd hcontra (by simp)

/-- Witness for C2: the spec's Google×3 / Meta×1 store, target `"google"`. -/
theorem c2_witness :
    ((remove_from_sheet true none
        ⟨expected_headers,
         [["Google", "SWE", "2025-01-01", "L", "Pending"],
          ["Google", "SWE", "2025-01-02", "L", "Pending"],
          ["google", "swe", "2025-01-03", "L", "Pending"],
          ["Meta", "PM", "2025-01-04", "L", "Pending"]]⟩ "google").1.rows
      = [["Meta", "PM", "2025-01-04", "L", "Pending"]]) ∧
    ((remove_from_sheet true none
        ⟨expected_headers,
         [["Google", "SWE", "2025-01-01", "L", "Pending"],
          ["Google", "SWE", "2025-01-02", "L", "Pending"],
          ["google", "swe", "2025-01-03", "L", "Pending"],
          ["Meta", "PM", "2025-01-04", "L", "Pending"]]⟩ "google").2.2
      = "Successfully removed 3 application(s) for Google from your job tracker!") ∧
    (remove_from_sheet true none ⟨expected_headers, []⟩ "google"
      = (⟨expected_headers, []⟩, false, "No application found for Google in your job tracker.")) := by
  refine ⟨?_, ?_, ?_⟩
  · rw [(c2_remove_exact
      ⟨expected_headers,
       [["Google", "SWE", "2025-01-01", "L", "Pending"],
        ["Google", "SWE", "2025-01-02", "L", "Pending"],
        ["google", "swe", "2025-01-03", "L", "Pending"],
        ["Meta", "PM", "2025-01-04", "L", "Pending"]]⟩ "google").2.1]
    rfl
  · rw [((c2_remove_exact
      ⟨expected_headers,
       [["Google", "SWE", "2025-01-01", "L", "Pending"],
        ["Google", "SWE", "2025-01-02", "L", "Pending"],
        ["google", "swe", "2025-01-03", "L", "Pending"],
        ["Meta", "PM", "2025-01-04", "L", "Pending"]]⟩ "google").2.2.1 rfl).2]
    rfl
  · exact (c2_remove_exact ⟨expected_headers, []⟩ "google").2.2.2 rfl

/-! ### Claim C3: the removal pattern on texts containing "remove X row"

The development below shows that on a text of the shape
`rm ++ " " ++ X ++ " " ++ rw3 ++ post` — with `rm` a case variant of
`remove`, `rw3` a case variant of `row`, and `X` newline-free, `row`-free
and not all whitespace — the leftmost match of the pattern captures
exactly `X` stripped of surrounding whitespace. -/

/-- A whitespace character is already lowercase. -/
theorem toLower_of_space (c : Char) (h : pyIsSpace c = true) : c.toLower = c := by
  simp [pyIsSpace] at h
  rcases h with ((((h | h) | h) | h) | h) | h <;> subst h <;> rfl

/-- A non-whitespace character is not a newline. -/
theorem beq_nl_of_not_space (c : Char) (h : pyIsSpace c = false) : (c == '\n') = false := by
  rcases hbe : c == '\n' with _ | _
  · rfl
  · rw [show c = '\n' from beq_iff_eq.mp hbe] at h
    simp [pyIsSpace] at h

/-- Unfolding equation for `ciStrip` on two conses. -/
theorem ciStrip_cons (p : Char) (ps : List Char) (c : Char) (cs : List Char) :
    ciStrip (p :: ps) (c :: cs)
      = if c.toLower == p.toLower then ciStrip ps cs else none := rfl

/-- `ciStrip` succeeds on any case variant of the pattern. -/
theorem ciStrip_of_lower :
    ∀ (p pre rest : List Char), pre.map Char.toLower = p.map Char.toLower →
      ciStrip p (pre ++ rest) = some rest := by
  intro p
  induction p with
  | nil =>
    intro pre rest h
    have : pre = [] := by simpa using h
    subst this
    rfl
  | cons a ps ih =>
    intro pre rest h
    cases pre with
    | nil => simp at h
    | cons b pre' =>
      simp only [List.map_cons, List.cons.injEq] at h
      rw [List.cons_append, ciStrip_cons]
      rw [if_pos (beq_iff_eq.mpr h.1)]
      exact ih pre' rest h.2

/-- A successful `ciStrip` peels off a case variant of the pattern. -/
theorem ciStrip_some :
    ∀ (p l rest : List Char), ciStrip p l = some rest →
      ∃ pre, l = pre ++ rest ∧ pre.map Char.toLower = p.map Char.toLower := by
  intro p
  induction p with
  | nil =>
    intro l rest h
    refine ⟨[], ?_, rfl⟩
    simpa [ciStrip] using h
  | cons a ps ih =>
    intro l rest h
    cases l with
    | nil => simp [ciStrip] at h
    | cons c cs =>
      unfold ciStrip at h
      split at h
      · obtain ⟨pre, hpre, hlow⟩ := ih cs rest h
        refine ⟨c :: pre, by rw [hpre]; rfl, ?_⟩
        simp only [List.map_cons, List.cons.injEq]
        exact ⟨beq_iff_eq.mp (by assumption), hlow⟩
      · exact absurd h (by simp)

/-- `matchHead` accepts its own needle. -/
theorem matchHead_self_append : ∀ (n r : List Char), matchHead n (n ++ r) = true := by
  intro n
  induction n with
  | nil => intro r; rfl
  | cons a as ih =>
    intro r
    show matchHead (a :: as) ((a :: as) ++ r) = true
    unfold matchHead
    simp [ih r]

/-- The substring test finds the needle at the head. -/
theorem subList_self_append : ∀ (n t : List Char), subList n (n ++ t) = true := by
  intro n t
  cases n with
  | nil =>
    cases t with
    | nil => rfl
    | cons c cs =>
      show (matchHead [] (c :: cs) || subList [] cs) = true
      rfl
  | cons a as =>
    show (matchHead (a :: as) (a :: (as ++ t)) || subList (a :: as) (as ++ t)) = true
    have hm := matchHead_self_append (a :: as) t
    rw [List.cons_append] at hm
    rw [hm]
    rfl

/-- The substring test is complete: an infix is found. -/
theorem subList_complete : ∀ (n h : List Char), n <:+: h → subList n h = true := by
  intro n h ⟨s, t, hst⟩
  subst hst
  induction s with
  | nil =>
    simp only [List.nil_append]
    exact subList_self_append n t
  | cons a s' ih =>
    show (matchHead n (a :: (s' ++ n ++ t)) || subList n (s' ++ n ++ t)) = true
    rw [ih]
    simp

/-- The greedy `\s+` consumes exactly the leading whitespace run. -/
theorem wsCount_append (u : List Char) (b : Char) (v : List Char)
    (hu : ∀ c ∈ u, pyIsSpace c = true) (hb : pyIsSpace b = false) :
    wsCount (u ++ b :: v) = u.length := by
  induction u with
  | nil =>
    show wsCount (b :: v) = 0
    unfold wsCount
    rw [hb]
    rfl
  | cons c u' ih =>
    show wsCount (c :: (u' ++ b :: v)) = u'.length + 1
    unfold wsCount
    rw [hu c (List.mem_cons_self c u')]
    rw [ih (fun x hx => hu x (List.mem_cons_of_mem _ hx))]
    rfl

/-- The head of a `dropWhile` result falsifies the predicate. -/
theorem dropWhile_head_false (p : Char → Bool) :
    ∀ (l : List Char) (a : Char) (t : List Char),
      l.dropWhile p = a :: t → p a = false := by
  intro l
  induction l with
  | nil =>
    intro a t h
    simp at h
  | cons c l' ih =>
    intro a t h
    rw [List.dropWhile_cons] at h
    split at h
    · exact ih a t h
    · rcases List.cons.injEq .. ▸ h with ⟨h1, _⟩
      subst h1
      simp_all

/-- A nonempty suffix of `R₀ ++ [d]` also ends in `d`. -/
theorem suffix_concat_last (R₀ : List Char) (d : Char) :
    ∀ (s : List Char), s ≠ [] → s <:+ R₀ ++ [d] → ∃ s₀, s = s₀ ++ [d] := by
  intro s hne ⟨pre, hpre⟩
  rcases List.eq_nil_or_concat s with h | ⟨s₀, e, h⟩
  · exact absurd h hne
  · rw [List.concat_eq_append] at h
    subst h
    refine ⟨s₀, ?_⟩
    have hrev := congrArg List.reverse hpre
    simp only [List.reverse_append, List.reverse_cons, List.reverse_nil,
      List.nil_append, List.cons_append, List.cons.injEq] at hrev
    rw [hrev.1]

/-- `\s+` then `row` matches at the trailing-whitespace-plus-`row` tail. -/
theorem wsThenRow_tail (tw rw3 post : List Char)
    (htw : ∀ c ∈ tw, pyIsSpace c = true)
    (hrw : rw3.map Char.toLower = "row".data) :
    wsThenRow (tw ++ ' ' :: (rw3 ++ post)) = true := by
  induction tw with
  | nil =>
    show wsThenRow (' ' :: (rw3 ++ post)) = true
    unfold wsThenRow
    rw [ciStrip_of_lower ['r', 'o', 'w'] rw3 post (by rw [hrw]; rfl)]
    rfl
  | cons c tw' ih =>
    show wsThenRow (c :: (tw' ++ ' ' :: (rw3 ++ post))) = true
    unfold wsThenRow
    rw [htw c (List.mem_cons_self c tw')]
    rw [ih (fun x hx => htw x (List.mem_cons_of_mem _ hx))]
    simp

/-- The literal `row` cannot match while the capture is still inside `X`:
either three capture characters would spell a case variant of `row`
(excluded by the substring hypothesis), or the match would have to use the
whitespace character that follows the capture region. -/
theorem rowP_none (Xfull : List Char) (c₀ : Char) (T₀ : List Char)
    (hrow : subList "row".data (Xfull.map Char.toLower) = false)
    (hwc : pyIsSpace c₀ = true) :
    ∀ (s : List Char), s <:+: Xfull →
      ciStrip ['r', 'o', 'w'] (s ++ c₀ :: T₀) = none := by
  intro s hinf
  cases hq : ciStrip ['r', 'o', 'w'] (s ++ c₀ :: T₀) with
  | none => rfl
  | some rest =>
    exfalso
    obtain ⟨pre, hpre, hlow⟩ := ciStrip_some _ _ _ hq
    have hlen : pre.length = 3 := by
      have := congrArg List.length hlow
      simpa using this
    rcases pre with _ | ⟨q1, _ | ⟨q2, _ | ⟨q3, _ | ⟨q4, pre'⟩⟩⟩⟩ <;> simp at hlen
    simp only [List.map_cons, List.map_nil, List.cons.injEq, and_true] at hlow
    obtain ⟨hq1, hq2, hq3⟩ :
        q1.toLower = 'r' ∧ q2.toLower = 'o' ∧ q3.toLower = 'w' := by
      refine ⟨hlow.1, hlow.2.1, hlow.2.2⟩
    rcases s with _ | ⟨a1, _ | ⟨a2, s3⟩⟩
    · -- s = []: c₀ would have to be a case variant of 'r'
      simp only [List.nil_append, List.cons_append, List.cons.injEq] at hpre
      have : c₀ = 'r' := by
        rw [← hpre.1] at hq1
        rw [← toLower_of_space c₀ hwc]
        exact hq1
      rw [this] at hwc
      simp [pyIsSpace] at hwc
    · -- s = [a1]: c₀ would have to be a case variant of 'o'
      simp only [List.cons_append, List.nil_append, List.cons.injEq] at hpre
      have : c₀ = 'o' := by
        rw [← hpre.2.1] at hq2
        rw [← toLower_of_space c₀ hwc]
        exact hq2
      rw [this] at hwc
      simp [pyIsSpace] at hwc
    · rcases s3 with _ | ⟨a3, s4⟩
      · -- s = [a1, a2]: c₀ would have to be a case variant of 'w'
        simp only [List.cons_append, List.nil_append, List.cons.injEq] at hpre
        have : c₀ = 'w' := by
          rw [← hpre.2.2.1] at hq3
          rw [← toLower_of_space c₀ hwc]
          exact hq3
        rw [this] at hwc
        simp [pyIsSpace] at hwc
      · -- s = a1 :: a2 :: a3 :: s4: the first three capture characters
        -- spell a case variant of `row` inside `X`
        simp only [List.cons_append, List.cons.injEq] at hpre
        have h3 : [a1, a2, a3] <+: (a1 :: a2 :: a3 :: s4) := ⟨s4, rfl⟩
        have hinf3 : [a1, a2, a3] <:+: Xfull := h3.isInfix.trans hinf
        have hmap : [a1, a2, a3].map Char.toLower <:+: Xfull.map Char.toLower :=
          hinf3.map Char.toLower
        have hspell : [a1, a2, a3].map Char.toLower = "row".data := by
          simp only [List.map_cons, List.map_nil]
          rw [← hpre.1] at hq1
          rw [← hpre.2.1] at hq2
          rw [← hpre.2.2.1] at hq3
          rw [hq1, hq2, hq3]
        rw [hspell] at hmap
        rw [subList_complete _ _ hmap] at hrow
        exact Bool.true_eq_false ▸ hrow

/-- While the remainder is still a (nonempty) suffix of the stripped core
`R₀ ++ [d]`, the lazy capture cannot stop: `\s+row` does not match there. -/
theorem wsThenRow_no_stop (Xfull R₀ : List Char) (d : Char) (c₀ : Char) (T₀ : List Char)
    (hrow : subList "row".data (Xfull.map Char.toLower) = false)
    (hinf : (R₀ ++ [d]) <:+: Xfull)
    (hd : pyIsSpace d = false)
    (hwc : pyIsSpace c₀ = true) :
    ∀ (s : List Char), s ≠ [] → s <:+ R₀ ++ [d] →
      wsThenRow (s ++ c₀ :: T₀) = false := by
  intro s
  induction s with
  | nil =>
    intro hne _
    exact absurd rfl hne
  | cons a s' ih =>
    intro _ hsuf
    show wsThenRow (a :: (s' ++ c₀ :: T₀)) = false
    unfold wsThenRow
    cases hws : pyIsSpace a with
    | false => rfl
    | true =>
      have hs'ne : s' ≠ [] := by
        intro h0
        subst h0
        obtain ⟨s₀, hs₀⟩ := suffix_concat_last R₀ d [a] (by simp) hsuf
        have had : a = d := by
          cases s₀ with
          | nil => simpa using hs₀
          | cons x xs =>
            have := congrArg List.length hs₀
            simp at this
        rw [had] at hws
        rw [hws] at hd
        exact Bool.true_eq_false ▸ hd
      have hs'suf : s' <:+ R₀ ++ [d] := (List.suffix_cons a s').trans hsuf
      have hs'inf : s' <:+: Xfull := hs'suf.isInfix.trans hinf
      rw [rowP_none Xfull c₀ T₀ hrow hwc s' hs'inf]
      rw [ih hs'ne hs'suf]
      rfl

/-- Running the lazy capture over the newline-free core: it consumes all of
`S` (no early stop) and stops exactly at `T`. -/
theorem lazyCap_run (T : List Char) (hT : wsThenRow T = true) :
    ∀ (S acc : List Char), (∀ c ∈ S, c ≠ '\n') →
      (∀ s, s ≠ [] → s <:+ S → wsThenRow (s ++ T) = false) →
      lazyCap acc (S ++ T) = some (acc.reverse ++ S) := by
  intro S
  induction S with
  | nil =>
    intro acc _ _
    cases T with
    | nil => simp [wsThenRow] at hT
    | cons c rest =>
      show lazyCap acc (c :: rest) = some (acc.reverse ++ [])
      rw [show lazyCap acc (c :: rest)
          = if wsThenRow (c :: rest) then some acc.reverse
            else if c == '\n' then none else lazyCap (c :: acc) rest from rfl]
      rw [if_pos hT]
      simp
  | cons a S' ih =>
    intro acc hnl hstop
    have hfalse : wsThenRow (a :: (S' ++ T)) = false := by
      have := hstop (a :: S') (by simp) (List.suffix_refl _)
      simpa using this
    show lazyCap acc (a :: (S' ++ T)) = _
    rw [show lazyCap acc (a :: (S' ++ T))
        = if wsThenRow (a :: (S' ++ T)) then some acc.reverse
          else if a == '\n' then none else lazyCap (a :: acc) (S' ++ T) from rfl]
    rw [if_neg (by simp [hfalse])]
    rw [if_neg (by simpa using hnl a (List.mem_cons_self a S'))]
    rw [ih (a :: acc) (fun c hc => hnl c (List.mem_cons_of_mem _ hc))
      (fun s hsne hssuf => hstop s hsne (hssuf.trans (List.suffix_cons a S')))]
    simp

/-- Unfolding equation for `searchRem` on a cons. -/
theorem searchRem_cons (c : Char) (cs : List Char) :
    searchRem (c :: cs)
      = match matchRemAt (c :: cs) with
        | some cap => some cap
        | none => searchRem cs := rfl

/-- A match at the head position decides the search. -/
theorem searchRem_head (l : List Char) (cap : List Char)
    (h : matchRemAt l = some cap) : searchRem l = some cap := by
  cases l with
  | nil =>
    rw [show matchRemAt [] = none from rfl] at h
    exact absurd h (by simp)
  | cons c cs =>
    rw [searchRem_cons, h]

/-- The backtracking tail of the pattern, run on `\s+` then the decomposed
core: the greedy `\s+` eats the run `' ' :: w`, and the lazy capture returns
exactly the stripped core `y :: R'`. -/
theorem matchRem_shape (w R' tw rw3 post R₀ : List Char) (y d : Char)
    (Xfull : List Char)
    (hXeq : Xfull = w ++ ((y :: R') ++ tw))
    (hRconcat : y :: R' = R₀ ++ [d])
    (hwws : ∀ c ∈ w, pyIsSpace c = true)
    (htwws : ∀ c ∈ tw, pyIsSpace c = true)
    (hyws : pyIsSpace y = false)
    (hd : pyIsSpace d = false)
    (hnl : ∀ c ∈ R', c ≠ '\n')
    (hrow : subList "row".data (Xfull.map Char.toLower) = false)
    (hrw : rw3.map Char.toLower = "row".data) :
    tryJ (wsCount (' ' :: (Xfull ++ ' ' :: (rw3 ++ post))))
        (' ' :: (Xfull ++ ' ' :: (rw3 ++ post)))
      = some (y :: R') := by
  have hrest : ' ' :: (Xfull ++ ' ' :: (rw3 ++ post))
      = (' ' :: w) ++ (y :: (R' ++ (tw ++ ' ' :: (rw3 ++ post)))) := by
    rw [hXeq]
    simp [List.append_assoc]
  obtain ⟨c₀, T₀, hTeq, hc₀⟩ :
      ∃ c₀ T₀, tw ++ ' ' :: (rw3 ++ post) = c₀ :: T₀ ∧ pyIsSpace c₀ = true := by
    cases tw with
    | nil => exact ⟨' ', rw3 ++ post, rfl, rfl⟩
    | cons e tw' =>
      exact ⟨e, tw' ++ ' ' :: (rw3 ++ post), rfl, htwws e (List.mem_cons_self e tw')⟩
  have hTws : wsThenRow (tw ++ ' ' :: (rw3 ++ post)) = true :=
    wsThenRow_tail tw rw3 post htwws hrw
  have hinfR : (R₀ ++ [d]) <:+: Xfull := by
    rw [← hRconcat, hXeq]
    exact ((List.prefix_append (y :: R') tw).isInfix).trans
      ((List.suffix_append w ((y :: R') ++ tw)).isInfix)
  have hstop : ∀ s, s ≠ [] → s <:+ R' →
      wsThenRow (s ++ (tw ++ ' ' :: (rw3 ++ post))) = false := by
    intro s hsne hssuf
    rw [hTeq]
    apply wsThenRow_no_stop Xfull R₀ d c₀ T₀ hrow hinfR hd hc₀ s hsne
    rw [← hRconcat]
    exact hssuf.trans (List.suffix_cons y R')
  have hlazy : lazyCap [y] (R' ++ (tw ++ ' ' :: (rw3 ++ post))) = some (y :: R') := by
    rw [lazyCap_run (tw ++ ' ' :: (rw3 ++ post)) hTws R' [y] hnl hstop]
    rfl
  have hcap : capStart (y :: (R' ++ (tw ++ ' ' :: (rw3 ++ post)))) = some (y :: R') := by
    rw [show capStart (y :: (R' ++ (tw ++ ' ' :: (rw3 ++ post))))
        = if y == '\n' then none
          else lazyCap [y] (R' ++ (tw ++ ' ' :: (rw3 ++ post))) from rfl]
    rw [if_neg (by simp [beq_nl_of_not_space y hyws])]
    exact hlazy
  have hwc : wsCount (' ' :: (Xfull ++ ' ' :: (rw3 ++ post))) = w.length + 1 := by
    rw [hrest]
    have h := wsCount_append (' ' :: w) y (R' ++ (tw ++ ' ' :: (rw3 ++ post)))
      (by
        intro c hc
        rcases List.mem_cons.mp hc with h | h
        · rw [h]
          rfl
        · exact hwws c h) hyws
    rw [h]
    rfl
  rw [hwc]
  rw [show tryJ (w.length + 1) (' ' :: (Xfull ++ ' ' :: (rw3 ++ post)))
      = match capStart ((' ' :: (Xfull ++ ' ' :: (rw3 ++ post))).drop (w.length + 1)) with
        | some cap => some cap
        | none => tryJ w.length (' ' :: (Xfull ++ ' ' :: (rw3 ++ post))) from rfl]
  have hdrop : (' ' :: (Xfull ++ ' ' :: (rw3 ++ post))).drop (w.length + 1)
      = y :: (R' ++ (tw ++ ' ' :: (rw3 ++ post))) := by
    rw [hrest]
    rw [show w.length + 1 = (' ' :: w).length from rfl]
    exact List.drop_left ..
  rw [hdrop, hcap]

/-- C3 (amended): on any text of the shape `remove X row …` — the word
`remove` and the closing `row` in any letter case and separated from `X`
by single spaces, with `X` containing no newline, containing no case
variant of `row`, and not consisting solely of whitespace — the classifier
yields `Remove`, the pattern's capture is `X` stripped of surrounding
whitespace, and the target recovered by the turn loop is that stripped
`X`. -/
theorem c3_remove_pattern (t : String) (rm X rw3 post : List Char)
    (ht : t.data = rm ++ ' ' :: (X ++ ' ' :: (rw3 ++ post)))
    (hrm : rm.map Char.toLower = "remove".data)
    (hrw : rw3.map Char.toLower = "row".data)
    (hnl : ∀ c ∈ X, c ≠ '\n')
    (hne : pyStripL X ≠ [])
    (hrow : subList "row".data (X.map Char.toLower) = false) :
    is_job_application t = MsgType.remove ∧
    searchRem t.data = some (pyStripL X) ∧
    removeTarget t = some ⟨pyStripL X⟩ := by
  -- decomposition: X = w ++ ((y :: R') ++ tw) with w, tw whitespace and
  -- y :: R' = pyStripL X = R₀ ++ [d], y and d not whitespace
  have hXsplit : X = X.takeWhile pyIsSpace ++ X.dropWhile pyIsSpace :=
    (List.takeWhile_append_dropWhile ..).symm
  have hrevsplit : X.dropWhile pyIsSpace
      = pyStripL X ++ ((X.dropWhile pyIsSpace).reverse.takeWhile pyIsSpace).reverse := by
    have h : (X.dropWhile pyIsSpace).reverse.takeWhile pyIsSpace
        ++ (X.dropWhile pyIsSpace).reverse.dropWhile pyIsSpace
        = (X.dropWhile pyIsSpace).reverse := List.takeWhile_append_dropWhile ..
    conv_lhs => rw [← List.reverse_reverse (X.dropWhile pyIsSpace), ← h]
    rw [List.reverse_append]
    rfl
  obtain ⟨y, R', hRc⟩ : ∃ y R', pyStripL X = y :: R' := by
    cases hc : pyStripL X with
    | nil => exact absurd hc hne
    | cons y R' => exact ⟨y, R', rfl⟩
  obtain ⟨R₀, d, hRconcat, hd⟩ :
      ∃ R₀ d, pyStripL X = R₀ ++ [d] ∧ pyIsSpace d = false := by
    cases hDc : (X.dropWhile pyIsSpace).reverse.dropWhile pyIsSpace with
    | nil =>
      exfalso
      apply hne
      show ((X.dropWhile pyIsSpace).reverse.dropWhile pyIsSpace).reverse = []
      rw [hDc]
      rfl
    | cons e D' =>
      refine ⟨D'.reverse, e, ?_, dropWhile_head_false pyIsSpace _ e D' hDc⟩
      show ((X.dropWhile pyIsSpace).reverse.dropWhile pyIsSpace).reverse = D'.reverse ++ [e]
      rw [hDc]
      rw [List.reverse_cons]
  have hXeq : X = X.takeWhile pyIsSpace
      ++ ((y :: R') ++ ((X.dropWhile pyIsSpace).reverse.takeWhile pyIsSpace).reverse) := by
    rw [← hRc]
    rw [← hrevsplit]
    exact hXsplit
  have hyws : pyIsSpace y = false := by
    have hB : X.dropWhile pyIsSpace
        = y :: (R' ++ ((X.dropWhile pyIsSpace).reverse.takeWhile pyIsSpace).reverse) := by
      conv_lhs => rw [hrevsplit]
      rw [hRc]
      rfl
    exact dropWhile_head_false pyIsSpace X y _ hB
  have htwws : ∀ c ∈ ((X.dropWhile pyIsSpace).reverse.takeWhile pyIsSpace).reverse,
      pyIsSpace c = true := by
    intro c hc
    rw [List.mem_reverse] at hc
    exact List.mem_takeWhile_imp hc
  have hwws : ∀ c ∈ X.takeWhile pyIsSpace, pyIsSpace c = true :=
    fun c hc => List.mem_takeWhile_imp hc
  have hnlR' : ∀ c ∈ R', c ≠ '\n' := by
    intro c hc
    apply hnl c
    rw [hXeq]
    exact List.mem_append_right _ (List.mem_append_left _ (List.mem_cons_of_mem y hc))
  have hmatch : matchRemAt t.data = some (pyStripL X) := by
    rw [ht]
    rw [show matchRemAt (rm ++ ' ' :: (X ++ ' ' :: (rw3 ++ post)))
        = match ciStrip "remove".data (rm ++ ' ' :: (X ++ ' ' :: (rw3 ++ post))) with
          | some rest => tryJ (wsCount rest) rest
          | none => none from rfl]
    rw [ciStrip_of_lower "remove".data rm (' ' :: (X ++ ' ' :: (rw3 ++ post)))
      (by rw [hrm]; rfl)]
    rw [hRc]
    exact matchRem_shape (X.takeWhile pyIsSpace) R'
      ((X.dropWhile pyIsSpace).reverse.takeWhile pyIsSpace).reverse rw3 post R₀ y d X
      hXeq (hRc.symm.trans hRconcat) hwws htwws hyws hd hnlR' hrow hrw
  have hsearch : searchRem t.data = some (pyStripL X) := searchRem_head t.data _ hmatch
  have hclean : pyStripL (pyStripL X) = pyStripL X := by
    show (((pyStripL X).dropWhile pyIsSpace).reverse.dropWhile pyIsSpace).reverse = pyStripL X
    have h1 : (pyStripL X).dropWhile pyIsSpace = pyStripL X := by
      rw [hRc]
      rw [List.dropWhile_cons]
      rw [if_neg (by simp [hyws])]
    rw [h1]
    have h2 : (pyStripL X).reverse = d :: R₀.reverse := by
      rw [hRconcat]
      rw [List.reverse_append]
      rfl
    rw [h2]
    rw [List.dropWhile_cons]
    rw [if_neg (by simp [hd])]
    rw [← h2, List.reverse_reverse]
  refine ⟨?_, hsearch, ?_⟩
  · unfold is_job_application
    rw [hsearch]
    rfl
  · unfold removeTarget
    rw [hsearch]
    show some (pyStripS ⟨pyStripL X⟩) = some ⟨pyStripL X⟩
    rw [show pyStripS ⟨pyStripL X⟩ = (⟨pyStripL (pyStripL X)⟩ : String) from rfl]
    rw [hclean]

/-- Witness for C3: `"Remove  Acme Corp row please"`, where `X` is
`" Acme Corp"` and the recovered target is `"Acme Corp"`. -/
theorem c3_witness :
    ("Remove  Acme Corp row please" : String).data
      = ("Remove" : String).data
        ++ ' ' :: ((" Acme Corp" : String).data
          ++ ' ' :: (("row" : String).data ++ (" please" : String).data)) ∧
    is_job_application "Remove  Acme Corp row please" = MsgType.remove ∧
    searchRem ("Remove  Acme Corp row please" : String).data
      = some (pyStripL (" Acme Corp" : String).data) ∧
    removeTarget "Remove  Acme Corp row please"
      = some ⟨pyStripL (" Acme Corp" : String).data⟩ ∧
    pyStripL (" Acme Corp" : String).data = ("Acme Corp" : String).data := by
  have h := c3_remove_pattern "Remove  Acme Corp row please"
    ("Remove" : String).data (" Acme Corp" : String).data
    ("row" : String).data (" please" : String).data
    rfl rfl rfl (by decide) (by decide) rfl
  exact ⟨rfl, h.1, h.2.1, h.2.2, rfl⟩

/-- Counterexample to C3 as stated: the text `"remove a\nb row"` contains
the substring `remove X row` with `X = "a\nb"` nonempty and free of the
word `row`, yet the classifier does not yield `Remove` (the pattern's `.`
never matches a newline, and no keyword fires either). -/
theorem c3_counterexample :
    ("remove a\nb row" : String).data
      = ("remove" : String).data
        ++ ' ' :: (("a\nb" : String).data ++ ' ' :: (("row" : String).data ++ [])) ∧
    ("a\nb" : String).data ≠ [] ∧
    subList "row".data (("a\nb" : String).data.map Char.toLower) = false ∧
    is_job_application "remove a\nb row" ≠ MsgType.remove :=
  ⟨rfl, by decide, rfl, by decide⟩
